import Mathlib

/-!
Shallow embedding of the ml-agents PettingZoo adaptation layer:
`mlagents_envs/envs/env_helpers.py`, `unity_pettingzoo_base_env.py` and
`unity_parallel_env.py`.

Modelling conventions:
* Python strings are `List Char`; agent identities and behavior names are
  therefore `List Char`.
* Python dictionaries are insertion-ordered association lists (`Dict`),
  manipulated only through `dget` / `dinsert` / `dupdate` / `ddel`, which
  mirror `d[k]`, `d[k] = v`, `d.update(e)` and `del d[k]`.
* numpy float arrays are lists of `ℚ` (exact arithmetic); machine integers
  are `Int` / `Nat`.
* A raised Python exception is `.error e` (pure helpers), or
  `.error (e, s)` where `s` is the state at the moment of the raise
  (stateful methods).
-/
abbrev AgentId := List Char

abbrev Dict (K V : Type) := List (K × V)

/-- Python action values as submitted to `_process_action`: `None`, a
numeric scalar (int or float), a numeric vector, or a tuple of a float
vector and an int vector.  `_action_to_np` (modelled by `action_to_np`)
converts a non-tuple value to the space's dtype before validation. -/
inductive PyAct where
  | none
  | intScalar (z : Int)
  | floatScalar (q : ℚ)
  | ints (v : List Int)
  | floats (v : List ℚ)
  | pair (c : List ℚ) (d : List Int)
deriving DecidableEq

/-- Python exceptions raised by the embedded code.  `invalidAction` models
`gymnasium.error.Error(f"Invalid action, got {action} but was expecting
action from {self.action_space}")`: at the raise, `action` is the
dtype-converted value `_action_to_np` produced (so the payload carries
the converted action), while `self.action_space` is the bound accessor
method of the env object, whose repr depends neither on the offending
agent nor on that agent's space. -/
inductive PzError where
  | keyError (k : List Char)
  | valueError
  | indexError
  | attributeError
  | invalidAction (got : PyAct)
  | mustReset
deriving DecidableEq

/-- Python `d[k]` as an `Option` (callers turn `none` into `KeyError`). -/
def dget {K V : Type} [DecidableEq K] : Dict K V → K → Option V
  | [], _ => Option.none
  | (k', v) :: t, k => if k' = k then some v else dget t k

/-- Python `d[k] = v`: update in place if the key is present, else append. -/
def dinsert {K V : Type} [DecidableEq K] : Dict K V → K → V → Dict K V
  | [], k, v => [(k, v)]
  | (k', v') :: t, k, v =>
      if k' = k then (k, v) :: t else (k', v') :: dinsert t k v

/-- Python `d.update(e)`: assign every entry of `e` into `d`, in order. -/
def dupdate {K V : Type} [DecidableEq K] (d e : Dict K V) : Dict K V :=
  e.foldl (fun acc p => dinsert acc p.1 p.2) d

/-- A Python dict comprehension / `dict(pairs)`: build from `[]`. -/
def dfrom {K V : Type} [DecidableEq K] (l : List (K × V)) : Dict K V :=
  dupdate [] l

/-- Python `del d[k]` (string-keyed dicts): `KeyError` when absent. -/
def ddel {V : Type} : Dict (List Char) V → List Char → Except PzError (Dict (List Char) V)
  | [], k => .error (.keyError k)
  | (k', v') :: t, k =>
      if k' = k then .ok t else (ddel t k).map (fun r => (k', v') :: r)

/-- Number of entries of `d` carrying key `k`. -/
def countKey {K V : Type} [DecidableEq K] : Dict K V → K → Nat
  | [], _ => 0
  | (k', _) :: t, k => (if k' = k then 1 else 0) + countKey t k

/-- Python `list.remove(x)`: drop the first occurrence, `ValueError` if absent. -/
def pyRemove {α : Type} [DecidableEq α] : List α → α → Except PzError (List α)
  | [], _ => .error .valueError
  | x :: t, a => if x = a then .ok t else (pyRemove t a).map (fun r => x :: r)

/-- Python `l[i]` read: `IndexError` out of range. -/
def pyGet {α : Type} : List α → Nat → Except PzError α
  | [], _ => .error .indexError
  | x :: _, 0 => .ok x
  | _ :: t, n + 1 => pyGet t n

/-- numpy row assignment `buf[i] = row`: `IndexError` out of range. -/
def pySet {α : Type} : List α → Nat → α → Except PzError (List α)
  | [], _, _ => .error .indexError
  | _ :: t, 0, v => .ok (v :: t)
  | x :: t, n + 1, v => (pySet t n v).map (fun r => x :: r)

/-! Agent identities (`env_helpers.py` lines 6-11).

`_behavior_to_agent_id` renders `f"{behavior_name}?agent_id={unique_id}"`;
the decimal rendering of the Python `int` is modelled by `intToChars`.
`_agent_id_to_behavior` is `agent_id.split("?agent_id=")[0]`, i.e. the text
before the first occurrence of the marker (the whole string if absent),
modelled by `splitFirstL`. -/

/-- The character Python's `str` uses for decimal digit `d` (`chr(48+d)`). -/
def digitCharP (d : Nat) : Char := Char.ofNat (48 + d)

/-- Decimal rendering of a natural number, as Python `str` does it. -/
def natToChars (n : Nat) : List Char :=
  if n = 0 then ['0'] else ((Nat.digits 10 n).map digitCharP).reverse

/-- Decimal rendering of a Python `int` (possibly negative). -/
def intToChars (z : Int) : List Char :=
  if z < 0 then '-' :: natToChars z.natAbs else natToChars z.toNat

/-- The id marker `"?agent_id="`. -/
def marker : List Char := ['?', 'a', 'g', 'e', 'n', 't', '_', 'i', 'd', '=']

/-- Source `_behavior_to_agent_id(behavior_name, unique_id)`. -/
def behavior_to_agent_id (b : List Char) (n : Int) : AgentId :=
  b ++ marker ++ intToChars n

/-- Boolean "p is a prefix of s" on character lists. -/
def isPreL : List Char → List Char → Bool
  | [], _ => true
  | _ :: _, [] => false
  | a :: as, c :: cs => a = c && isPreL as cs

/-- Text strictly before the first occurrence of `pat` in `s` (all of `s`
when `pat` does not occur); `s.split(pat)[0]` for nonempty `pat`. -/
def splitFirstL (pat : List Char) : List Char → List Char
  | [] => []
  | c :: cs => if isPreL pat (c :: cs) then [] else c :: splitFirstL pat cs

/-- Boolean "pat occurs as a contiguous substring of s". -/
def containsSubL (pat : List Char) : List Char → Bool
  | [] => isPreL pat []
  | c :: cs => isPreL pat (c :: cs) || containsSubL pat cs

/-- Source `_agent_id_to_behavior(agent_id)`. -/
def agent_id_to_behavior (a : AgentId) : List Char :=
  splitFirstL marker a

/-! Batch translator (`env_helpers.py` lines 14-74).

A decision/termination batch is a struct of per-behavior batched arrays,
exactly as `DecisionSteps` / `TerminalSteps` expose them: `obs` is a list
of sensors, each holding one payload per agent; `action_mask` (decision
only) is a list of branches, each holding one mask per agent. -/
abbrev ObsP := List ℚ

abbrev MaskP := List Bool

/-- A value of the per-agent observation mapping: a list of per-sensor
payloads, a bare payload (a length-1 list collapsed by
`{k: v if len(v) > 1 else v[0]}`), or the structured
`{"observation": ..., "action_mask": ...}` dict. -/
inductive ObsVal where
  | sensors (ps : List ObsP)
  | single (p : ObsP)
  | masked (observation : List ObsP) (action_mask : List MaskP)
deriving DecidableEq

/-- The per-agent info dict: keys `behavior_name`, `group_id`,
`group_reward`, and `interrupted` (termination-batch agents only). -/
structure InfoV where
  behavior_name : List Char
  group_id : Int
  group_reward : ℚ
  interrupted : Option Bool
deriving DecidableEq

structure DecisionBatch where
  agent_id : List Int
  obs : List (List ObsP)
  reward : List ℚ
  group_id : List Int
  group_reward : List ℚ
  action_mask : Option (List (List MaskP))
deriving DecidableEq

structure TerminalBatch where
  agent_id : List Int
  obs : List (List ObsP)
  reward : List ℚ
  group_id : List Int
  group_reward : List ℚ
  interrupted : List Bool
deriving DecidableEq

/-- numpy `.astype(np.uint8)` on a float value: C-style truncation toward
zero, wrapped modulo 256. -/
def astypeUint8 (q : ℚ) : Int :=
  (if 0 ≤ q then ⌊q⌋ else ⌈q⌉) % 256

/-- Source `_preprocess_single(single_visual_obs, uint8_visual)`:
`(255.0 * obs).astype(np.uint8)` elementwise when enabled, identity
otherwise. -/
def preprocess_single (uint8_visual : Bool) (p : ObsP) : ObsP :=
  if uint8_visual then p.map (fun v => ((astypeUint8 (255 * v) : Int) : ℚ)) else p

/-- Monadic map with Python's fail-at-first-error semantics. -/
def mapME {α β : Type} (f : α → Except PzError β) : List α → Except PzError (List β)
  | [] => .ok []
  | x :: t =>
      match f x with
      | .error e => .error e
      | .ok y => (mapME f t).map (fun r => y :: r)

/-- Collapse rule `{k: v if len(v) > 1 else v[0] for k, v in obs.items()}` on one value:
dict values (`masked`) have two keys, so they are never collapsed;
sensor lists of length 1 collapse to the bare payload; an empty sensor
list would raise `IndexError` on `v[0]`. -/
def collapseObs : ObsVal → Except PzError ObsVal
  | .sensors ps =>
      if 1 < ps.length then .ok (.sensors ps)
      else
        match ps with
        | [p] => .ok (.single p)
        | _ => .error .indexError
  | v => .ok v

def dcollapse (d : Dict AgentId ObsVal) : Except PzError (Dict AgentId ObsVal) :=
  (mapME (fun p => (collapseObs p.2).map (fun w => (p.1, w))) d).map dfrom

/-- The tuple returned by `_unwrap_batch_steps`. -/
structure Unwrapped where
  agents : List AgentId
  obs : Dict AgentId ObsVal
  terminations : Dict AgentId Bool
  rewards : Dict AgentId ℚ
  cumulative_rewards : Dict AgentId ℚ
  infos : Dict AgentId InfoV
  id_map : Dict AgentId Nat
deriving DecidableEq

/-- Source `_unwrap_batch_steps(batch_steps, behavior_name, uint8_visual)`. -/
def unwrap_batch_steps (batch_steps : DecisionBatch × TerminalBatch)
    (behavior_name : List Char) (uint8_visual : Bool) :
    Except PzError Unwrapped := do
  let decision_batch := batch_steps.1
  let termination_batch := batch_steps.2
  let decision_id := decision_batch.agent_id.map (behavior_to_agent_id behavior_name)
  let termination_id := termination_batch.agent_id.map (behavior_to_agent_id behavior_name)
  let agents := decision_id ++ termination_id
  let obsT ← mapME (fun p =>
      (mapME (fun so => pyGet so p.1) termination_batch.obs).map
        (fun ps => (p.2, ObsVal.sensors ps))) termination_id.enum
  let obs0 := dfrom obsT
  let obs1 ← match decision_batch.action_mask with
    | some masks =>
        (mapME (fun p => do
          let ps ← mapME (fun so =>
            (pyGet so p.1).map (preprocess_single uint8_visual)) decision_batch.obs
          let ms ← mapME (fun mask => pyGet mask p.1) masks
          pure (p.2, ObsVal.masked ps ms)) decision_id.enum).map
          (fun l => dupdate obs0 (dfrom l))
    | Option.none =>
        (mapME (fun p =>
          (mapME (fun so =>
            (pyGet so p.1).map (preprocess_single uint8_visual)) decision_batch.obs).map
            (fun ps => (p.2, ObsVal.sensors ps))) decision_id.enum).map
          (fun l => dupdate obs0 (dfrom l))
  let obs ← dcollapse obs1
  let terminations := dupdate (dfrom (termination_id.map (fun a => (a, true))))
      (dfrom (decision_id.map (fun a => (a, false))))
  let rewT ← mapME (fun p =>
      (pyGet termination_batch.reward p.1).map (fun r => (p.2, r))) termination_id.enum
  let rewD ← mapME (fun p =>
      (pyGet decision_batch.reward p.1).map (fun r => (p.2, r))) decision_id.enum
  let rewards := dupdate (dfrom rewT) (dfrom rewD)
  let cumulative_rewards := dfrom rewards
  let infD ← mapME (fun p => do
      let gid ← pyGet decision_batch.group_id p.1
      let gr ← pyGet decision_batch.group_reward p.1
      pure (p.2, InfoV.mk behavior_name gid gr Option.none)) decision_id.enum
  let infT ← mapME (fun p => do
      let gid ← pyGet termination_batch.group_id p.1
      let gr ← pyGet termination_batch.group_reward p.1
      let intr ← pyGet termination_batch.interrupted p.1
      pure (p.2, InfoV.mk behavior_name gid gr (some intr))) termination_id.enum
  let infos := dupdate (dupdate [] infD) infT
  let id_map := dfrom (decision_id.enum.map (fun p => (p.2, p.1)))
  pure ⟨agents, obs, terminations, rewards, cumulative_rewards, infos, id_map⟩

/-! Dictionary lemmas. -/

/-- Keys of the association list are pairwise distinct (true of every
dict built through `dinsert`, as Python dicts are). -/
def NodupKeys {K V : Type} (d : Dict K V) : Prop :=
  (d.map Prod.fst).Nodup

def bB : List Char := ['B']

/-- Concrete decision batch whose single agent id 0 also appears in the
termination batch — the situation the simulation produces when an agent
ends an episode and begins a new one in the same simulation step. -/
def dbC3 : DecisionBatch :=
  ⟨[0], [[[(0 : ℚ)]]], [0], [0], [0], Option.none⟩

def tbC3 : TerminalBatch :=
  ⟨[0], [[[(0 : ℚ)]]], [0], [0], [0], [false]⟩

def dbW3 : DecisionBatch := ⟨[0], [[[(0 : ℚ)]]], [0], [0], [0], Option.none⟩

def tbW3 : TerminalBatch := ⟨[], [], [], [], [], []⟩

def rW3 : Unwrapped :=
  ⟨["B?agent_id=0".toList],
   [("B?agent_id=0".toList, ObsVal.single [(0 : ℚ)])],
   [("B?agent_id=0".toList, false)],
   [("B?agent_id=0".toList, (0 : ℚ))],
   [("B?agent_id=0".toList, (0 : ℚ))],
   [("B?agent_id=0".toList, InfoV.mk bB 0 0 Option.none)],
   [("B?agent_id=0".toList, 0)]⟩

/-! Lifecycle controller (`unity_pettingzoo_base_env.py`, `unity_parallel_env.py`).

The underlying `UnityEnvironment` is an external collaborator: what it
returns from `get_steps` after an advance is an input (`EnvResponse`),
one `BehaviorIn` per entry of `behavior_specs`, in iteration order. -/

/-- The four space shapes `_update_action_spaces` can build:
`Discrete(k)`, `MultiDiscrete(branches)`, `Box(-1, 1, (dim,))`, or the
`Tuple(Box, MultiDiscrete)` of both. -/
inductive ActionSpace where
  | discrete (n : Nat)
  | multiDiscrete (branches : List Nat)
  | box (dim : Nat)
  | tuple (dim : Nat) (branches : List Nat)
deriving DecidableEq

/-- Membership `space.contains(action)` for those four shapes: bounds and
shape; a value of the wrong structure is simply not contained. -/
def containsA : ActionSpace → PyAct → Bool
  | .discrete n, .intScalar z => decide (0 ≤ z) && decide (z < (n : Int))
  | .multiDiscrete br, .ints v =>
      decide (v.length = br.length) &&
        (v.zip br).all (fun p => decide (0 ≤ p.1) && decide (p.1 < (p.2 : Int)))
  | .box d, .floats v =>
      decide (v.length = d) && v.all (fun x => decide (-1 ≤ x) && decide (x ≤ 1))
  | .tuple d br, .pair c dv =>
      (decide (c.length = d) && c.all (fun x => decide (-1 ≤ x) && decide (x ≤ 1))) &&
        (decide (dv.length = br.length) &&
          (dv.zip br).all (fun p => decide (0 ≤ p.1) && decide (p.1 < (p.2 : Int))))
  | _, _ => false

/-- C-style cast of a float to an integer dtype: truncation toward zero. -/
def truncInt (q : ℚ) : Int :=
  if 0 ≤ q then ⌊q⌋ else ⌈q⌉

/-- Source `_action_to_np(current_action_space, action)`:
`np.array(action, dtype=current_action_space.dtype)`.  `Discrete` and
`MultiDiscrete` have an integer dtype, so float payloads are truncated
toward zero; `Box` has dtype float32, so int payloads are widened to
floats; a value already of the space's dtype passes through.  Tuple-typed
actions never reach this call (the `isinstance(action, Tuple)` branch
converts each part with a plain `np.array(a)`, the identity on these
structured values), and the `Tuple` space's dtype is `None`, so both are
covered by the identity catch-all. -/
def action_to_np : ActionSpace → PyAct → PyAct
  | .discrete _, .floatScalar q => .intScalar (truncInt q)
  | .discrete _, .floats v => .ints (v.map truncInt)
  | .multiDiscrete _, .floatScalar q => .intScalar (truncInt q)
  | .multiDiscrete _, .floats v => .ints (v.map truncInt)
  | .box _, .intScalar z => .floatScalar (z : ℚ)
  | .box _, .ints v => .floats (v.map (fun z => (z : ℚ)))
  | _, a => a

/-- Modelled from the spec: the `ActionTuple` built for one agent at the
end of `_process_action`'s conversion — the action in the group's native
split representation (continuous row and/or discrete row).
`mlagents_envs.base_env.ActionTuple` itself lies outside the embedded
source files. -/
structure ActionTupleV where
  continuous : Option (List ℚ)
  discrete : Option (List Int)
deriving DecidableEq

/-- The conversion branches of `_process_action`: `Tuple` keeps both
parts, `MultiDiscrete` the int vector, `Discrete` the scalar reshaped to
a (1,1) row, `Box` the float vector.  Mismatched combinations are
unreachable behind a `containsA` guard. -/
def toActionTuple : ActionSpace → PyAct → ActionTupleV
  | .tuple _ _, .pair c d => ⟨some c, some d⟩
  | .multiDiscrete _, .ints v => ⟨Option.none, some v⟩
  | .discrete _, .intScalar z => ⟨Option.none, some [z]⟩
  | .box _, .floats v => ⟨some v, Option.none⟩
  | _, _ => ⟨Option.none, Option.none⟩

/-- One behavior's pending-action buffers (`ActionTuple` of batched
continuous and discrete rows). -/
structure ActionBuffers where
  continuous : List (List ℚ)
  discrete : List (List Int)
deriving DecidableEq

/-- The behavior's `ActionSpec`: continuous size and discrete branches. -/
structure ActionSpecM where
  contSize : Nat
  branches : List Nat
deriving DecidableEq

/-- Source `_create_empty_actions(behavior_name, num_agents)`. -/
def create_empty_actions (spec : ActionSpecM) (num_agents : Nat) : ActionBuffers :=
  ⟨List.replicate num_agents (List.replicate spec.contSize (0 : ℚ)),
   List.replicate num_agents (List.replicate spec.branches.length (0 : Int))⟩

/-- Python set `add` (first-insertion order). -/
def setAdd (s : List AgentId) (a : AgentId) : List AgentId :=
  if a ∈ s then s else s ++ [a]

/-- Python `set.update(iterable)`. -/
def setUpdate (s : List AgentId) (l : List AgentId) : List AgentId :=
  l.foldl setAdd s

/-- Python string `<` (lexicographic by code point). -/
def charListLt : List Char → List Char → Bool
  | [], [] => false
  | [], _ :: _ => true
  | _ :: _, [] => false
  | a :: as, b :: bs =>
      if a.val < b.val then true else if b.val < a.val then false else charListLt as bs

def insertSorted (x : AgentId) : List AgentId → List AgentId
  | [] => [x]
  | y :: t => if charListLt x y then x :: y :: t else y :: insertSorted x t

/-- Python `list.sort()` on agent-id lists. -/
def pySort (l : List AgentId) : List AgentId :=
  l.foldr insertSorted []

/-- The mutable fields of `UnityPettingzooBaseEnv`, plus `simSteps`
counting how many times the underlying `env.step()` was invoked. -/
structure EnvState where
  live_agents : List AgentId
  agents : List AgentId
  possible_agents : List AgentId
  agent_id_to_index : Dict AgentId Nat
  observations : Dict AgentId ObsVal
  terminations : Dict AgentId Bool
  truncations : Dict AgentId Bool
  rewards : Dict AgentId ℚ
  cumm_rewards : Dict AgentId ℚ
  infos : Dict AgentId InfoV
  current_action : Dict (List Char) ActionBuffers
  action_spaces : Dict (List Char) ActionSpace
  uint8_visual : Bool
  agent_index : Nat
  simSteps : Nat
deriving DecidableEq

/-- Source `_reset_states`. -/
def reset_states (s : EnvState) : EnvState :=
  { s with
    live_agents := []
    agents := []
    observations := []
    terminations := []
    truncations := []
    rewards := []
    cumm_rewards := []
    infos := []
    agent_id_to_index := [] }

/-- One behavior's data for one simulation advance: its name, its
`behavior_specs[...].action_spec`, and what `get_steps` returns. -/
structure BehaviorIn where
  bname : List Char
  spec : ActionSpecM
  decision : DecisionBatch
  terminal : TerminalBatch
deriving DecidableEq

abbrev EnvResponse := List BehaviorIn

/-- Source `_batch_update(behavior_name)`: reinitialize the pending-action
buffer, unwrap the batch, merge agents/observations/infos/index map into
the state, and return the terminations / rewards / cumulative rewards
dictionaries for the caller to merge. -/
def batch_update (s : EnvState) (b : BehaviorIn) :
    Except (PzError × EnvState)
      (EnvState × Dict AgentId Bool × Dict AgentId ℚ × Dict AgentId ℚ) :=
  let s1 := { s with
    current_action := dinsert s.current_action b.bname
      (create_empty_actions b.spec b.decision.agent_id.length) }
  match unwrap_batch_steps (b.decision, b.terminal) b.bname s.uint8_visual with
  | .error e => .error (e, s1)
  | .ok r =>
      .ok ({ s1 with
        live_agents := s1.live_agents ++ r.agents
        agents := s1.agents ++ r.agents
        observations := dupdate s1.observations r.obs
        infos := dupdate s1.infos r.infos
        agent_id_to_index := dupdate s1.agent_id_to_index r.id_map
        possible_agents := setUpdate s1.possible_agents r.agents },
        r.terminations, r.rewards, r.cumulative_rewards)

/-- The per-behavior loop of `_step`: `_batch_update`, then merge the
returned terminations / rewards / cumulative rewards (`_truncations` is
never repopulated here, exactly as in the source). -/
def stepBehaviors (s : EnvState) : EnvResponse → Except (PzError × EnvState) EnvState
  | [] => .ok s
  | b :: rest =>
      match batch_update s b with
      | .error e => .error e
      | .ok (s', t, rw, c) =>
          stepBehaviors { s' with
            terminations := dupdate s'.terminations t
            rewards := dupdate s'.rewards rw
            cumm_rewards := dupdate s'.cumm_rewards c } rest

/-- Source `_step`: submit pending actions (`set_actions` has no client-side
effect), advance the simulation once, clear per-agent state, re-run the
batch update per behavior, reset `_agent_index`. -/
def stepEnv (s : EnvState) (resp : EnvResponse) :
    Except (PzError × EnvState) EnvState :=
  let s1 := { s with simSteps := s.simSteps + 1 }
  let s2 := reset_states s1
  match stepBehaviors s2 resp with
  | .error e => .error e
  | .ok s3 => .ok { s3 with agent_index := 0 }

/-- The `_deads_order` comprehension of `_cleanup_agents`, including its
short-circuit `self._terminations[agent] or self._truncations[agent]`
(a missing key raises `KeyError`). -/
def collectDeads (s : EnvState) : List AgentId → Except PzError (List AgentId)
  | [] => .ok []
  | a :: t =>
      match dget s.terminations a with
      | Option.none => .error (.keyError a)
      | some tflag =>
          if tflag then (collectDeads s t).map (fun r => a :: r)
          else
            match dget s.truncations a with
            | Option.none => .error (.keyError a)
            | some trflag =>
                if trflag then (collectDeads s t).map (fun r => a :: r)
                else collectDeads s t

/-- The removal loop of `_cleanup_agents`: remove each dead agent from
`_live_agents` and `_agents`, re-sorting `_agents` each iteration. -/
def removeDeads (s : EnvState) : List AgentId → Except (PzError × EnvState) EnvState
  | [] => .ok s
  | a :: t =>
      match pyRemove s.live_agents a with
      | .error e => .error (e, s)
      | .ok lv =>
          let s1 := { s with live_agents := lv }
          match pyRemove s1.agents a with
          | .error e => .error (e, s1)
          | .ok ag => removeDeads { s1 with agents := pySort ag } t

/-- Source `_cleanup_agents`. -/
def cleanup_agents (s : EnvState) : Except (PzError × EnvState) EnvState :=
  match collectDeads s s.agents with
  | .error e => .error (e, s)
  | .ok deads => removeDeads s deads

/-- The removal branch of `_process_action` (already-flagged agent):
`list.remove` from `_live_agents`, then `del` from the six per-agent
dicts, in source order. -/
def procDead (s : EnvState) (a : AgentId) : Except (PzError × EnvState) EnvState :=
  match pyRemove s.live_agents a with
  | .error e => .error (e, s)
  | .ok lv =>
    let s1 := { s with live_agents := lv }
    match ddel s1.observations a with
    | .error e => .error (e, s1)
    | .ok d1 =>
      let s2 := { s1 with observations := d1 }
      match ddel s2.terminations a with
      | .error e => .error (e, s2)
      | .ok d2 =>
        let s3 := { s2 with terminations := d2 }
        match ddel s3.truncations a with
        | .error e => .error (e, s3)
        | .ok d3 =>
          let s4 := { s3 with truncations := d3 }
          match ddel s4.rewards a with
          | .error e => .error (e, s4)
          | .ok d4 =>
            let s5 := { s4 with rewards := d4 }
            match ddel s5.cumm_rewards a with
            | .error e => .error (e, s5)
            | .ok d5 =>
              let s6 := { s5 with cumm_rewards := d5 }
              match ddel s6.infos a with
              | .error e => .error (e, s6)
              | .ok d6 => .ok { s6 with infos := d6 }

/-- The discrete half of the buffer write in `_process_action`. -/
def procWriteDisc (s : EnvState) (bname : List Char) (idx : Nat)
    (dv : Option (List Int)) : Except (PzError × EnvState) EnvState :=
  match dv with
  | Option.none => .ok s
  | some d =>
      match dget s.current_action bname with
      | Option.none => .error (.keyError bname, s)
      | some buf =>
          match pySet buf.discrete idx d with
          | .error e => .error (e, s)
          | .ok disc =>
              .ok { s with
                current_action :=
                  dinsert s.current_action bname ⟨buf.continuous, disc⟩ }

/-- The buffer-write branch of `_process_action` (live agent): look up
the agent's slot, write the continuous row then the discrete row into
the behavior's pending buffers.  A `None` action reaching this branch
raises `AttributeError` (`None.continuous`). -/
def procWrite (s : EnvState) (a : AgentId) (atvOpt : Option ActionTupleV) :
    Except (PzError × EnvState) EnvState :=
  let bname := agent_id_to_behavior a
  match dget s.agent_id_to_index a with
  | Option.none => .error (.keyError a, s)
  | some idx =>
    match atvOpt with
    | Option.none => .error (.attributeError, s)
    | some atv =>
      match atv.continuous with
      | Option.none => procWriteDisc s bname idx atv.discrete
      | some c =>
          match dget s.current_action bname with
          | Option.none => .error (.keyError bname, s)
          | some buf =>
            match pySet buf.continuous idx c with
            | .error e => .error (e, s)
            | .ok cont =>
                procWriteDisc
                  { s with
                    current_action :=
                      dinsert s.current_action bname ⟨cont, buf.discrete⟩ }
                  bname idx atv.discrete

/-- The flag check `not (self._terminations[a] or self._truncations[a])`
of `_process_action` and the two branches it selects. -/
def procFlag (s : EnvState) (a : AgentId) (atv : Option ActionTupleV) :
    Except (PzError × EnvState) EnvState :=
  match dget s.terminations a with
  | Option.none => .error (.keyError a, s)
  | some tflag =>
      if tflag then procDead s a
      else
        match dget s.truncations a with
        | Option.none => .error (.keyError a, s)
        | some trflag =>
            if trflag then procDead s a else procWrite s a atv

/-- Source `_process_action(current_agent, action)`: resolve the agent's space,
convert a non-`None` action to the space's dtype (`action_to_np`: the
`isinstance(action, Tuple)` branch is the identity on structured pairs,
so one conversion function covers both source branches), validate the
converted action — raising the invalid-action error, which interpolates
the converted action, when `contains` fails — then run the flag check. -/
def process_action (s : EnvState) (a : AgentId) (act : PyAct) :
    Except (PzError × EnvState) EnvState :=
  match dget s.action_spaces (agent_id_to_behavior a) with
  | Option.none => .error (.keyError (agent_id_to_behavior a), s)
  | some sp =>
      match act with
      | PyAct.none => procFlag s a Option.none
      | act =>
          if containsA sp (action_to_np sp act) then
            procFlag s a (some (toActionTuple sp (action_to_np sp act)))
          else .error (.invalidAction (action_to_np sp act), s)

/-- The action loop of `UnityParallelEnv.step`. -/
def processActions (s : EnvState) :
    List (AgentId × PyAct) → Except (PzError × EnvState) EnvState
  | [] => .ok s
  | (a, act) :: rest =>
      match process_action s a act with
      | .error e => .error e
      | .ok s' => processActions s' rest

/-- Source `UnityParallelEnv.step(actions)`: premature-step check, per-agent
action processing, reward reset, `_step`, `_cleanup_agents`, and the
final `_live_agents.sort()`. -/
def stepP (s : EnvState) (actions : List (AgentId × PyAct)) (resp : EnvResponse) :
    Except (PzError × EnvState) EnvState :=
  if s.live_agents.length ≤ 0 ∧ actions ≠ [] then .error (.mustReset, s)
  else
    match processActions s actions with
    | .error e => .error e
    | .ok s1 =>
      let s2 := { s1 with rewards := s1.rewards.map (fun p => (p.1, (0 : ℚ))) }
      match stepEnv s2 resp with
      | .error e => .error e
      | .ok s3 =>
          match cleanup_agents s3 with
          | .error e => .error e
          | .ok s4 => .ok { s4 with live_agents := pySort s4.live_agents }

/-- The per-behavior loop of `reset` (`_, _, _ = self._batch_update(...)`
discards the returned dictionaries). -/
def resetBehaviors (s : EnvState) : EnvResponse → Except (PzError × EnvState) EnvState
  | [] => .ok s
  | b :: rest =>
      match batch_update s b with
      | .error e => .error e
      | .ok (s', _, _, _) => resetBehaviors s' rest

/-- Source `UnityPettingzooBaseEnv.reset()`: clear all lifecycle state and the
possible-agent set, advance through the env reset, batch-update every
behavior, sort the live list, and zero-initialize the four flag/reward
dictionaries over `_agents`. -/
def resetP (s : EnvState) (resp : EnvResponse) :
    Except (PzError × EnvState) EnvState :=
  let s1 := { s with agent_index := 0 }
  let s2 := reset_states s1
  let s3 := { s2 with possible_agents := [] }
  match resetBehaviors s3 resp with
  | .error e => .error e
  | .ok s4 =>
      let s5 := { s4 with live_agents := pySort s4.live_agents }
      .ok { s5 with
        terminations := dfrom (s5.agents.map (fun a => (a, false)))
        truncations := dfrom (s5.agents.map (fun a => (a, false)))
        rewards := dfrom (s5.agents.map (fun a => (a, (0 : ℚ))))
        cumm_rewards := dfrom (s5.agents.map (fun a => (a, (0 : ℚ)))) }

def sEmpty : EnvState :=
  ⟨[], [], [], [], [], [], [], [], [], [], [], [], false, 0, 0⟩

def aB0 : AgentId := "B?agent_id=0".toList

def aC0 : AgentId := "C?agent_id=0".toList

/-- A state with two live agents of different behaviors: `B` has a
`Discrete(3)` space, `C` a `Discrete(2)` space.  Both spaces share the
int64 dtype, so `_action_to_np` converts the same submitted scalar to
the same value for both agents. -/
def sC6 : EnvState :=
  ⟨[aB0, aC0], [aB0, aC0], [aB0, aC0], [(aB0, 0), (aC0, 0)],
   [(aB0, ObsVal.single [0]), (aC0, ObsVal.single [0])],
   [(aB0, false), (aC0, false)], [(aB0, false), (aC0, false)],
   [(aB0, 0), (aC0, 0)], [(aB0, 0), (aC0, 0)], [],
   [(['B'], ⟨[[]], [[0]]⟩), (['C'], ⟨[[]], [[0]]⟩)],
   [(['B'], ActionSpace.discrete 3), (['C'], ActionSpace.discrete 2)],
   false, 0, 0⟩

/-- A state holding one flagged (terminated) agent with a complete
per-agent bundle. -/
def sC2 : EnvState :=
  ⟨[aB0], [aB0], [aB0], [(aB0, 0)], [(aB0, ObsVal.single [0])],
   [(aB0, true)], [(aB0, false)], [(aB0, 0)], [(aB0, 0)],
   [(aB0, InfoV.mk ['B'] 0 0 Option.none)], [(['B'], ⟨[[]], [[0]]⟩)],
   [(['B'], ActionSpace.discrete 3)], false, 0, 0⟩

/-- The post-step state of the trivial completed step: nothing submitted,
no behaviors reported, one simulation advance. -/
def sEmptyStepped : EnvState :=
  ⟨[], [], [], [], [], [], [], [], [], [], [], [], false, 0, 1⟩

def specB : ActionSpecM := ⟨0, [3]⟩

def dbC1 : DecisionBatch := ⟨[0], [[[(0 : ℚ)]]], [0], [0], [0], Option.none⟩

def tbC1 : TerminalBatch := ⟨[], [], [], [], [], []⟩

/-- The environment reports one behavior `B` whose decision batch holds
the single agent 0 — the ordinary situation after a reset and after every
normal advance. -/
def respC1 : EnvResponse := [⟨bB, specB, dbC1, tbC1⟩]

def sInitC1 : EnvState :=
  ⟨[], [], [], [], [], [], [], [], [], [], [],
   [(bB, ActionSpace.discrete 3)], false, 0, 0⟩

/-- The state after `reset()` in the C1 scenario. -/
def s0C1 : EnvState := ((resetP sInitC1 respC1).toOption).getD sInitC1

/-! Read accessors and aliasing (`unity_pettingzoo_base_env.py` lines 321-342).

`terminations`, `rewards`, `infos` return `dict(self._...)`; `agents` and
`possible_agents` return fresh sorted lists.  For the scalar-valued
mappings a shallow copy is a full snapshot, but the values of `_infos`
are themselves dicts, and `dict(self._infos)` shares them.  To express
sharing, info dictionaries live on an explicit two-level heap: `tops`
maps each top-level dict object (by reference) to its agent → inner
reference mapping, `objs` maps each inner reference to the info record it
denotes; `self._infos` is the top-level object at `selfRef`. -/
structure InfosHeap where
  tops : Dict Nat (Dict AgentId Nat)
  objs : Dict Nat InfoV
  next : Nat
  selfRef : Nat
deriving DecidableEq

/-- The `infos` property, `dict(self._infos)`: allocate a fresh top-level
dict carrying the same agent → inner-reference entries (a shallow copy:
the per-agent info objects are shared, not copied). -/
def infosProp (h : InfosHeap) : Except PzError (InfosHeap × Nat) :=
  match dget h.tops h.selfRef with
  | Option.none => .error (.keyError [])
  | some d =>
      .ok ({ h with tops := dinsert h.tops h.next d, next := h.next + 1 }, h.next)

/-- Caller-side nested mutation `returned[agent]["group_id"] = g`. -/
def setNestedGroupId (h : InfosHeap) (top : Nat) (a : AgentId) (g : Int) :
    Except PzError InfosHeap :=
  match dget h.tops top with
  | Option.none => .error (.keyError [])
  | some d =>
      match dget d a with
      | Option.none => .error (.keyError a)
      | some r =>
          match dget h.objs r with
          | Option.none => .error (.keyError [])
          | some info =>
              .ok { h with objs := dinsert h.objs r { info with group_id := g } }

/-- Caller-side top-level mutation `del returned[agent]`. -/
def delTopKey (h : InfosHeap) (top : Nat) (a : AgentId) :
    Except PzError InfosHeap :=
  match dget h.tops top with
  | Option.none => .error (.keyError [])
  | some d =>
      match ddel d a with
      | .error e => .error e
      | .ok d' => .ok { h with tops := dinsert h.tops top d' }

/-- What the controller itself subsequently reads: `self._infos[a]`. -/
def readInternal (h : InfosHeap) (a : AgentId) : Option InfoV :=
  match dget h.tops h.selfRef with
  | Option.none => Option.none
  | some d =>
      match dget d a with
      | Option.none => Option.none
      | some r => dget h.objs r

def infoH0 : InfoV := ⟨bB, 0, 0, Option.none⟩

/-- A heap where the controller's `_infos` (object 0) maps agent
`B?agent_id=0` to the info object 10. -/
def heapC9 : InfosHeap := ⟨[(0, [(aB0, 10)])], [(10, infoH0)], 1, 0⟩

def h1W : InfosHeap :=
  ⟨[(0, [(aB0, 10)]), (1, [(aB0, 10)])], [(10, infoH0)], 2, 0⟩

def h2W : InfosHeap :=
  ⟨[(0, [(aB0, 10)]), (1, [])], [(10, infoH0)], 2, 0⟩

def h3W : InfosHeap :=
  ⟨[(0, [(aB0, 10)]), (1, [(aB0, 10)])],
   [(10, { infoH0 with group_id := 7 })], 2, 0⟩

theorem isPreL_append_self (p t : List Char) : isPreL p (p ++ t) = true := by
  induction p with
  | nil => rfl
  | cons a as ih => simp [isPreL, ih]

theorem isPreL_of_append (p l r : List Char) (h : isPreL p (l ++ r) = true)
    (hlen : p.length ≤ l.length) : isPreL p l = true := by
  induction p generalizing l with
  | nil => rfl
  | cons a as ih =>
    cases l with
    | nil => simp at hlen
    | cons c cs =>
      simp only [List.cons_append, isPreL, Bool.and_eq_true, decide_eq_true_eq] at h ⊢
      exact ⟨h.1, ih cs h.2 (by simpa using hlen)⟩

theorem isPreL_drop_of_append (l p r : List Char) (h : isPreL p (l ++ r) = true)
    (hlen : l.length ≤ p.length) : isPreL (p.drop l.length) r = true := by
  induction l generalizing p with
  | nil => simpa using h
  | cons c cs ih =>
    cases p with
    | nil => simp at hlen
    | cons a as =>
      simp only [List.cons_append, isPreL, Bool.and_eq_true] at h
      simpa using ih as h.2 (by simpa using hlen)

theorem marker_no_self_overlap :
    ∀ k, k < 10 → 0 < k → isPreL (marker.drop k) marker = false := by decide

theorem splitFirstL_of_isPreL (pat s : List Char) (h : isPreL pat s = true)
    (hp : pat ≠ []) : splitFirstL pat s = [] := by
  cases s with
  | nil =>
    cases pat with
    | nil => exact absurd rfl hp
    | cons a as => simp [isPreL] at h
  | cons c cs => simp [splitFirstL, h]

theorem splitFirstL_marker_append (b t : List Char)
    (hb : containsSubL marker b = false) :
    splitFirstL marker (b ++ (marker ++ t)) = b := by
  induction b with
  | nil =>
    simpa using splitFirstL_of_isPreL marker (marker ++ t)
      (isPreL_append_self marker t) (by simp [marker])
  | cons c cs ih =>
    simp only [containsSubL, Bool.or_eq_false_iff] at hb
    have hpre : isPreL marker ((c :: cs) ++ (marker ++ t)) = false := by
      by_contra hcon
      have htrue : isPreL marker ((c :: cs) ++ (marker ++ t)) = true := by
        revert hcon; cases isPreL marker ((c :: cs) ++ (marker ++ t)) <;> simp
      by_cases hlen : (10 : Nat) ≤ (c :: cs).length
      · have : isPreL marker (c :: cs) = true :=
          isPreL_of_append marker (c :: cs) (marker ++ t) htrue hlen
        rw [hb.1] at this; exact Bool.false_ne_true this
      · push_neg at hlen
        have hk : (c :: cs).length ≤ marker.length := by
          simpa [marker] using Nat.le_of_lt hlen
        have hdrop := isPreL_drop_of_append (c :: cs) marker (marker ++ t) htrue hk
        have hdrop' : isPreL (marker.drop (c :: cs).length) marker = true :=
          isPreL_of_append _ marker t hdrop (by
            simp [List.length_drop])
        have := marker_no_self_overlap (c :: cs).length (by simpa [marker] using hlen)
          (by simp)
        rw [this] at hdrop'; exact Bool.false_ne_true hdrop'
    show splitFirstL marker (c :: (cs ++ (marker ++ t))) = c :: cs
    simp only [splitFirstL]
    rw [show c :: (cs ++ (marker ++ t)) = (c :: cs) ++ (marker ++ t) from rfl, hpre]
    simp [ih hb.2]

theorem digitCharP_inj :
    ∀ d₁, d₁ < 10 → ∀ d₂, d₂ < 10 → digitCharP d₁ = digitCharP d₂ → d₁ = d₂ := by
  decide

theorem map_digitCharP_inj (l₁ l₂ : List Nat) (h₁ : ∀ d ∈ l₁, d < 10)
    (h₂ : ∀ d ∈ l₂, d < 10) (h : l₁.map digitCharP = l₂.map digitCharP) :
    l₁ = l₂ := by
  induction l₁ generalizing l₂ with
  | nil => cases l₂ <;> simp_all
  | cons a as ih =>
    cases l₂ with
    | nil => simp_all
    | cons b bs =>
      simp only [List.map_cons, List.cons.injEq] at h
      have ha : a = b := digitCharP_inj a (h₁ a (by simp)) b (h₂ b (by simp)) h.1
      have := ih bs (fun d hd => h₁ d (by simp [hd])) (fun d hd => h₂ d (by simp [hd])) h.2
      simp [ha, this]

theorem digitCharP_ne_dash : ∀ d, d < 10 → digitCharP d ≠ '-' := by decide

theorem natToChars_no_dash (n : Nat) : ∀ c ∈ natToChars n, c ≠ '-' := by
  intro c hc
  unfold natToChars at hc
  by_cases h : n = 0
  · simp [h] at hc
    simp [hc]
  · simp only [h, if_false, List.mem_reverse, List.mem_map] at hc
    obtain ⟨d, hd, rfl⟩ := hc
    exact digitCharP_ne_dash d (Nat.digits_lt_base (by norm_num) hd)

theorem natToChars_inj (m n : Nat) (h : natToChars m = natToChars n) : m = n := by
  unfold natToChars at h
  by_cases hm : m = 0 <;> by_cases hn : n = 0
  · simp [hm, hn]
  · exfalso
    simp only [hm, if_true, hn, if_false] at h
    have : (Nat.digits 10 n).map digitCharP = ['0'] := by
      have := congrArg List.reverse h
      simpa using this.symm
    have hd : Nat.digits 10 n = [0] := by
      cases hdig : Nat.digits 10 n with
      | nil => simp [hdig] at this
      | cons d ds =>
        rw [hdig] at this
        cases ds with
        | nil =>
          simp only [List.map_cons, List.map_nil, List.cons.injEq] at this
          have hmem : d ∈ Nat.digits 10 n := by rw [hdig]; simp
          have hlt : d < 10 := Nat.digits_lt_base (by norm_num) hmem
          have : d = 0 := by
            have h0 : digitCharP d = digitCharP 0 := by rw [this.1]; decide
            exact digitCharP_inj d hlt 0 (by norm_num) h0
          simp [this]
        | cons e es => simp at this
    have := Nat.ofDigits_digits 10 n
    rw [hd] at this
    simp [Nat.ofDigits_cons, Nat.ofDigits_nil] at this
    exact hn this.symm
  · exfalso
    simp only [hm, if_false, hn, if_true] at h
    have : (Nat.digits 10 m).map digitCharP = ['0'] := by
      have := congrArg List.reverse h
      simpa using this
    have hd : Nat.digits 10 m = [0] := by
      cases hdig : Nat.digits 10 m with
      | nil => simp [hdig] at this
      | cons d ds =>
        rw [hdig] at this
        cases ds with
        | nil =>
          simp only [List.map_cons, List.map_nil, List.cons.injEq] at this
          have hmem : d ∈ Nat.digits 10 m := by rw [hdig]; simp
          have hlt : d < 10 := Nat.digits_lt_base (by norm_num) hmem
          have : d = 0 := by
            have h0 : digitCharP d = digitCharP 0 := by rw [this.1]; decide
            exact digitCharP_inj d hlt 0 (by norm_num) h0
          simp [this]
        | cons e es => simp at this
    have := Nat.ofDigits_digits 10 m
    rw [hd] at this
    simp [Nat.ofDigits_cons, Nat.ofDigits_nil] at this
    exact hm this.symm
  · simp only [hm, hn, if_false] at h
    have hmap : (Nat.digits 10 m).map digitCharP = (Nat.digits 10 n).map digitCharP := by
      have := congrArg List.reverse h
      simpa using this
    have hdig := map_digitCharP_inj _ _
      (fun d hd => Nat.digits_lt_base (by norm_num) hd)
      (fun d hd => Nat.digits_lt_base (by norm_num) hd) hmap
    have h1 := Nat.ofDigits_digits 10 m
    have h2 := Nat.ofDigits_digits 10 n
    rw [hdig] at h1
    rw [h2] at h1
    exact h1.symm

theorem intToChars_inj (z₁ z₂ : Int) (h : intToChars z₁ = intToChars z₂) :
    z₁ = z₂ := by
  unfold intToChars at h
  by_cases h1 : z₁ < 0 <;> by_cases h2 : z₂ < 0
  · simp only [h1, h2, if_true, List.cons.injEq, true_and] at h
    have := natToChars_inj _ _ h
    omega
  · exfalso
    simp only [h1, h2, if_true, if_false] at h
    exact natToChars_no_dash z₂.toNat '-' (h ▸ List.mem_cons_self _ _) rfl
  · exfalso
    simp only [h1, h2, if_true, if_false] at h
    exact natToChars_no_dash z₁.toNat '-' (h ▸ List.mem_cons_self _ _) rfl
  · simp only [h1, h2, if_false] at h
    have := natToChars_inj _ _ h
    omega

theorem behavior_to_agent_id_inj (b : List Char) (n₁ n₂ : Int)
    (h : behavior_to_agent_id b n₁ = behavior_to_agent_id b n₂) : n₁ = n₂ := by
  unfold behavior_to_agent_id at h
  exact intToChars_inj _ _ (List.append_cancel_left h)

theorem keys_dinsert {K V : Type} [DecidableEq K] (d : Dict K V) (k : K) (v : V) :
    (dinsert d k v).map Prod.fst =
      if k ∈ d.map Prod.fst then d.map Prod.fst else d.map Prod.fst ++ [k] := by
  induction d with
  | nil => simp [dinsert]
  | cons p t ih =>
    by_cases hk : p.1 = k
    · simp [dinsert, hk]
    · have hk' : ¬ k = p.1 := fun hc => hk hc.symm
      simp only [dinsert, if_neg hk, List.map_cons, ih, List.mem_cons]
      by_cases hm : k ∈ t.map Prod.fst
      · simp [hm, hk']
      · simp [hm, hk']

theorem nodupKeys_dinsert {K V : Type} [DecidableEq K] (d : Dict K V) (k : K) (v : V)
    (h : NodupKeys d) : NodupKeys (dinsert d k v) := by
  unfold NodupKeys at h ⊢
  rw [keys_dinsert]
  by_cases hm : k ∈ d.map Prod.fst
  · simpa [hm] using h
  · rw [if_neg hm, List.nodup_append]
    refine ⟨h, List.nodup_singleton _, ?_⟩
    intro a ha hb
    simp only [List.mem_singleton] at hb
    subst hb
    exact hm ha

theorem nodupKeys_dupdate {K V : Type} [DecidableEq K] (d e : Dict K V)
    (h : NodupKeys d) : NodupKeys (dupdate d e) := by
  induction e generalizing d with
  | nil => simpa [dupdate] using h
  | cons p t ih =>
    show NodupKeys (dupdate (dinsert d p.1 p.2) t)
    exact ih _ (nodupKeys_dinsert d p.1 p.2 h)

theorem nodupKeys_dfrom {K V : Type} [DecidableEq K] (l : List (K × V)) :
    NodupKeys (dfrom l) :=
  nodupKeys_dupdate [] l (by simp [NodupKeys])

theorem dinsert_append_of_not_mem {K V : Type} [DecidableEq K] (d : Dict K V)
    (k : K) (v : V) (h : k ∉ d.map Prod.fst) : dinsert d k v = d ++ [(k, v)] := by
  induction d with
  | nil => simp [dinsert]
  | cons p t ih =>
    simp only [List.map_cons, List.mem_cons] at h
    push_neg at h
    have h1 : ¬ p.1 = k := fun hc => h.1 hc.symm
    simp only [dinsert, if_neg h1, List.cons_append]
    rw [ih h.2]

theorem dupdate_of_nodupKeys_append {K V : Type} [DecidableEq K] (e d : Dict K V)
    (h : NodupKeys (d ++ e)) : dupdate d e = d ++ e := by
  induction e generalizing d with
  | nil => simp [dupdate]
  | cons p t ih =>
    obtain ⟨k, v⟩ := p
    have hk : k ∉ d.map Prod.fst := by
      unfold NodupKeys at h
      simp only [List.map_append, List.map_cons] at h
      intro hc
      exact (List.disjoint_of_nodup_append h) hc (by simp)
    show dupdate (dinsert d k v) t = d ++ (k, v) :: t
    rw [dinsert_append_of_not_mem d k v hk]
    have : NodupKeys ((d ++ [(k, v)]) ++ t) := by
      simpa [NodupKeys, List.append_assoc] using h
    rw [ih _ this]
    simp

theorem dfrom_of_nodupKeys {K V : Type} [DecidableEq K] (d : Dict K V)
    (h : NodupKeys d) : dfrom d = d := by
  simpa using dupdate_of_nodupKeys_append d [] (by simpa using h)

/-- Peeling one `Except` bind that produced `.ok`. -/
theorem except_bind_ok {α β : Type} (x : Except PzError α) (f : α → Except PzError β)
    (r : β) (h : (x >>= f) = .ok r) : ∃ a, x = .ok a ∧ f a = .ok r := by
  cases x with
  | error e => simp [Bind.bind, Except.bind] at h
  | ok a => exact ⟨a, rfl, by simpa [Bind.bind, Except.bind] using h⟩

theorem unwrap_ok_fields (db : DecisionBatch) (tb : TerminalBatch) (bn : List Char)
    (u8 : Bool) (r : Unwrapped) (h : unwrap_batch_steps (db, tb) bn u8 = .ok r) :
    r.agents = db.agent_id.map (behavior_to_agent_id bn) ++
      tb.agent_id.map (behavior_to_agent_id bn) ∧
    (∃ t d : List (AgentId × ℚ), r.rewards = dupdate (dfrom t) (dfrom d)) ∧
    r.cumulative_rewards = dfrom r.rewards := by
  simp only [unwrap_batch_steps] at h
  obtain ⟨obsT, h1, h⟩ := except_bind_ok _ _ _ h
  cases hmask : db.action_mask with
  | some masks =>
    simp only [hmask] at h
    obtain ⟨y, h2, h⟩ := except_bind_ok _ _ _ h
    obtain ⟨obs, h3, h⟩ := except_bind_ok _ _ _ h
    obtain ⟨rewT, h4, h⟩ := except_bind_ok _ _ _ h
    obtain ⟨rewD, h5, h⟩ := except_bind_ok _ _ _ h
    obtain ⟨infD, h6, h⟩ := except_bind_ok _ _ _ h
    obtain ⟨infT, h7, h⟩ := except_bind_ok _ _ _ h
    simp only [pure, Except.pure, Except.ok.injEq] at h
    subst h
    exact ⟨rfl, ⟨_, _, rfl⟩, rfl⟩
  | none =>
    simp only [hmask] at h
    obtain ⟨y, h2, h⟩ := except_bind_ok _ _ _ h
    obtain ⟨obs, h3, h⟩ := except_bind_ok _ _ _ h
    obtain ⟨rewT, h4, h⟩ := except_bind_ok _ _ _ h
    obtain ⟨rewD, h5, h⟩ := except_bind_ok _ _ _ h
    obtain ⟨infD, h6, h⟩ := except_bind_ok _ _ _ h
    obtain ⟨infT, h7, h⟩ := except_bind_ok _ _ _ h
    simp only [pure, Except.pure, Except.ok.injEq] at h
    subst h
    exact ⟨rfl, ⟨_, _, rfl⟩, rfl⟩

/-- C3 (counterexample): when the same numeric id appears in both the
decision batch and the termination batch of one `translate` call, the
returned agent-id list contains the same identity twice, refuting the
claimed no-duplicates property (the length property still holds:
2 = 1 + 1). -/
theorem translate_agents_dup_cex :
    (unwrap_batch_steps (dbC3, tbC3) bB false).toOption.map
      (fun r => (decide r.agents.Nodup, r.agents.length)) = some (false, 2) := by
  decide

/-- C3 (amended): the agent-id list returned by `_unwrap_batch_steps` has
length |decision batch| + |termination batch| always, and has no duplicate
identities provided the decision ids are pairwise distinct, the
termination ids are pairwise distinct, and no id occurs in both batches. -/
theorem translate_agents_nodup_length (db : DecisionBatch) (tb : TerminalBatch)
    (bn : List Char) (u8 : Bool) (r : Unwrapped)
    (h : unwrap_batch_steps (db, tb) bn u8 = .ok r)
    (h1 : db.agent_id.Nodup) (h2 : tb.agent_id.Nodup)
    (h3 : ∀ i ∈ db.agent_id, i ∉ tb.agent_id) :
    r.agents.Nodup ∧ r.agents.length = db.agent_id.length + tb.agent_id.length := by
  obtain ⟨hag, -, -⟩ := unwrap_ok_fields db tb bn u8 r h
  have hinj : Function.Injective (behavior_to_agent_id bn) :=
    fun x y hxy => behavior_to_agent_id_inj bn x y hxy
  constructor
  · rw [hag]
    refine List.Nodup.append (h1.map hinj) (h2.map hinj) ?_
    intro a haD haT
    obtain ⟨x, hx, rfl⟩ := List.mem_map.mp haD
    obtain ⟨y, hy, hxy⟩ := List.mem_map.mp haT
    have : y = x := hinj hxy
    subst this
    exact h3 y hx hy
  · simp [hag]

/-- Witness for `translate_agents_nodup_length` at a concrete batch. -/
theorem translate_agents_nodup_length_witness :
    rW3.agents.Nodup ∧
      rW3.agents.length = dbW3.agent_id.length + tbW3.agent_id.length :=
  translate_agents_nodup_length dbW3 tbW3 bB false rW3 rfl (by decide)
    (by decide) (by decide)

/-- C10: the cumulative-rewards mapping returned by the translator is an
entrywise copy of the rewards mapping — same keys, same values, no
accumulation across steps. -/
theorem translate_cumulative_eq_rewards (db : DecisionBatch) (tb : TerminalBatch)
    (bn : List Char) (u8 : Bool) (r : Unwrapped)
    (h : unwrap_batch_steps (db, tb) bn u8 = .ok r) :
    r.cumulative_rewards = r.rewards := by
  obtain ⟨-, ⟨t, d, hrw⟩, hcum⟩ := unwrap_ok_fields db tb bn u8 r h
  rw [hcum, hrw]
  exact dfrom_of_nodupKeys _ (nodupKeys_dupdate _ _ (nodupKeys_dfrom t))

/-- Witness for `translate_cumulative_eq_rewards` at a concrete batch. -/
theorem translate_cumulative_eq_rewards_witness :
    rW3.cumulative_rewards = rW3.rewards :=
  translate_cumulative_eq_rewards dbW3 tbW3 bB false rW3 rfl

/-- C4 (counterexample): with preprocessing enabled the value 1/2 maps to
127 (`astype(np.uint8)` truncates), while `round(255 × 1/2) = 128`; the
output is not `round(255 × v)`. -/
theorem preprocess_truncates_cex :
    preprocess_single true [(1 : ℚ)/2] = [(127 : ℚ)] ∧
      round ((255 : ℚ) * ((1 : ℚ)/2)) = (128 : ℤ) := by
  constructor
  · simp only [preprocess_single, if_true, List.map_cons, List.map_nil, astypeUint8]
    norm_num [Int.floor_eq_iff]
  · norm_num [round_eq, Int.floor_eq_iff]

/-- C4 (amended): with preprocessing enabled, an input value v ∈ [0,1]
maps to `⌊255 × v⌋` (truncation toward zero, not rounding), which lies in
[0,255]; with preprocessing disabled every payload passes through
unchanged. -/
theorem preprocess_floor_range (v : ℚ) (h0 : 0 ≤ v) (h1 : v ≤ 1) :
    preprocess_single true [v] = [((⌊(255 : ℚ) * v⌋ : ℤ) : ℚ)] ∧
      0 ≤ ⌊(255 : ℚ) * v⌋ ∧ ⌊(255 : ℚ) * v⌋ ≤ 255 ∧
      ∀ p : ObsP, preprocess_single false p = p := by
  have hv0 : (0 : ℚ) ≤ 255 * v := by positivity
  have hfl0 : (0 : ℤ) ≤ ⌊(255 : ℚ) * v⌋ := Int.floor_nonneg.mpr hv0
  have hfl255 : ⌊(255 : ℚ) * v⌋ ≤ 255 := by
    have : (255 : ℚ) * v ≤ 255 := by nlinarith
    calc ⌊(255 : ℚ) * v⌋ ≤ ⌊(255 : ℚ)⌋ := Int.floor_le_floor this
    _ = 255 := by norm_num
  refine ⟨?_, hfl0, hfl255, fun p => by simp [preprocess_single]⟩
  simp only [preprocess_single, if_true, List.map_cons, List.map_nil, astypeUint8,
    if_pos hv0]
  rw [Int.emod_eq_of_lt hfl0 (by omega)]

/-- Witness for `preprocess_floor_range` at v = 1/2. -/
theorem preprocess_floor_range_witness :
    preprocess_single true [(1 : ℚ)/2] = [((⌊(255 : ℚ) * ((1 : ℚ)/2)⌋ : ℤ) : ℚ)] :=
  (preprocess_floor_range ((1 : ℚ)/2) (by norm_num) (by norm_num)).1

/-- C5 (counterexample): for the behavior name "a?agent_id=0", which
itself contains the id marker, splitting the constructed identity on the
first marker occurrence returns "a", not the original name. -/
theorem agent_id_roundtrip_cex :
    agent_id_to_behavior (behavior_to_agent_id ("a?agent_id=0".toList) 0) ≠
      "a?agent_id=0".toList ∧
    agent_id_to_behavior (behavior_to_agent_id ("a?agent_id=0".toList) 0) =
      "a".toList := by
  constructor <;> decide

/-- C5 (amended): for every behavior name b that does not contain the id
marker "?agent_id=" as a substring, and every integer id n, splitting the
constructed identity on the first marker occurrence recovers b exactly. -/
theorem agent_id_roundtrip (b : List Char) (n : Int)
    (hb : containsSubL marker b = false) :
    agent_id_to_behavior (behavior_to_agent_id b n) = b := by
  unfold agent_id_to_behavior behavior_to_agent_id
  rw [List.append_assoc]
  exact splitFirstL_marker_append b (intToChars n) hb

/-- Witness for `agent_id_roundtrip` at the behavior name "Ball", id 0. -/
theorem agent_id_roundtrip_witness :
    agent_id_to_behavior (behavior_to_agent_id ("Ball".toList) 0) =
      "Ball".toList :=
  agent_id_roundtrip ("Ball".toList) 0 (by decide)

/-- C7: calling step() while the live-agent set is empty and the supplied
action mapping is non-empty raises the must-reset error; the state at the
raise is the entry state unchanged — in particular `simSteps` is
unchanged, so no simulation advance occurred. -/
theorem step_premature_error (s : EnvState) (actions : List (AgentId × PyAct))
    (resp : EnvResponse) (hlive : s.live_agents = []) (hacts : actions ≠ []) :
    stepP s actions resp = .error (.mustReset, s) := by
  unfold stepP
  rw [if_pos ⟨by simp [hlive], hacts⟩]

/-- Witness for `step_premature_error` on the empty state. -/
theorem step_premature_error_witness :
    stepP sEmpty [(bB, PyAct.none)] [] = .error (.mustReset, sEmpty) :=
  step_premature_error sEmpty [(bB, PyAct.none)] [] rfl (by simp)

/-- C6 (amended): when the first submitted action, converted to its
behavior's dtype, fails the space's `contains` check (live set non-empty,
so the premature-step check passes), step() raises the invalid-action
error; the error's payload carries the dtype-converted rejected action
only — the f-string interpolates `self.action_space`, the bound accessor
method, which depends neither on the offending agent nor on that agent's
expected space, so the message names neither the agent nor the agent's
space (at most the space's dtype leaks, through the conversion of the
reported action). -/
theorem step_invalid_action_error (s : EnvState) (a : AgentId) (act : PyAct)
    (rest : List (AgentId × PyAct)) (resp : EnvResponse) (sp : ActionSpace)
    (hlive : s.live_agents ≠ [])
    (hsp : dget s.action_spaces (agent_id_to_behavior a) = some sp)
    (hnn : act ≠ PyAct.none)
    (hinv : containsA sp (action_to_np sp act) = false) :
    stepP s ((a, act) :: rest) resp =
      .error (.invalidAction (action_to_np sp act), s) := by
  have hpa : process_action s a act =
      .error (.invalidAction (action_to_np sp act), s) := by
    simp only [process_action, hsp]
    cases act with
    | none => exact absurd rfl hnn
    | intScalar z => simp [hinv]
    | floatScalar q => simp [hinv]
    | ints v => simp [hinv]
    | floats v => simp [hinv]
    | pair c d => simp [hinv]
  unfold stepP
  rw [if_neg (fun hc => hlive (List.length_eq_zero.mp (Nat.le_zero.mp hc.1)))]
  simp only [processActions, hpa]

/-- C6 (counterexample): two agents of different behaviors — hence with
different expected action spaces, `Discrete(3)` and `Discrete(2)` — each
submit the out-of-range scalar 5.  Both spaces have the int64 dtype, so
`_action_to_np` converts the submission to the same value 5 for both
agents, and step() raises *equal* error values (converted payload
included) for both; no function of the error can identify the offending
agent or the expected action space, refuting the claim that the message
identifies them. -/
theorem step_invalid_action_uninformative_cex :
    action_to_np (ActionSpace.discrete 3) (PyAct.intScalar 5) =
      action_to_np (ActionSpace.discrete 2) (PyAct.intScalar 5) ∧
    stepP sC6 [(aB0, PyAct.intScalar 5)] [] =
      stepP sC6 [(aC0, PyAct.intScalar 5)] [] ∧
    stepP sC6 [(aB0, PyAct.intScalar 5)] [] =
      .error (.invalidAction (PyAct.intScalar 5), sC6) ∧
    aB0 ≠ aC0 ∧
    dget sC6.action_spaces (agent_id_to_behavior aB0) ≠
      dget sC6.action_spaces (agent_id_to_behavior aC0) := by
  refine ⟨rfl, rfl, rfl, by decide, by decide⟩

/-- Witness for `step_invalid_action_error` at a concrete invalid action. -/
theorem step_invalid_action_error_witness :
    stepP sC6 [(aB0, PyAct.intScalar 5)] [] =
      .error (.invalidAction
        (action_to_np (ActionSpace.discrete 3) (PyAct.intScalar 5)), sC6) :=
  step_invalid_action_error sC6 aB0 (PyAct.intScalar 5) [] []
    (ActionSpace.discrete 3) (by decide) (by decide) (by decide) (by decide)

theorem pyRemove_count_one (l : List AgentId) (a : AgentId)
    (h : l.count a = 1) : ∃ l', pyRemove l a = .ok l' ∧ a ∉ l' := by
  induction l with
  | nil => simp [List.count_nil] at h
  | cons x t ih =>
    by_cases hx : x = a
    · subst hx
      rw [List.count_cons_self] at h
      have ht : t.count x = 0 := by omega
      exact ⟨t, by simp [pyRemove], List.count_eq_zero.mp ht⟩
    · rw [List.count_cons_of_ne (fun hc => hx hc.symm)] at h
      obtain ⟨l', hl', hmem⟩ := ih h
      refine ⟨x :: l', ?_, ?_⟩
      · simp [pyRemove, hx, hl', Except.map]
      · simp only [List.mem_cons]
        rintro (rfl | hc)
        · exact hx rfl
        · exact hmem hc

theorem ddel_countKey_one {V : Type} (d : Dict (List Char) V) (a : List Char)
    (h : countKey d a = 1) : ∃ d', ddel d a = .ok d' ∧ countKey d' a = 0 := by
  induction d with
  | nil => simp [countKey] at h
  | cons p t ih =>
    obtain ⟨k, v⟩ := p
    by_cases hp : k = a
    · have ht : countKey t a = 0 := by
        simp only [countKey, if_pos hp] at h
        omega
      refine ⟨t, ?_, ht⟩
      show (if k = a then Except.ok t
        else (ddel t a).map (fun r => (k, v) :: r)) = Except.ok t
      rw [if_pos hp]
    · have h' : countKey t a = 1 := by
        simpa [countKey, if_neg hp] using h
      obtain ⟨d', hd', hc⟩ := ih h'
      refine ⟨(k, v) :: d', ?_, ?_⟩
      · show (if k = a then Except.ok t
          else (ddel t a).map (fun r => (k, v) :: r)) = Except.ok ((k, v) :: d')
        rw [if_neg hp, hd']
        rfl
      · simp [countKey, if_neg hp, hc]

theorem procDead_removes (s : EnvState) (a : AgentId)
    (hlive : s.live_agents.count a = 1)
    (hobs : countKey s.observations a = 1)
    (hter : countKey s.terminations a = 1)
    (htru : countKey s.truncations a = 1)
    (hrew : countKey s.rewards a = 1)
    (hcum : countKey s.cumm_rewards a = 1)
    (hinf : countKey s.infos a = 1) :
    ∃ s', procDead s a = .ok s' ∧
      s'.current_action = s.current_action ∧
      a ∉ s'.live_agents ∧
      countKey s'.observations a = 0 ∧
      countKey s'.terminations a = 0 ∧
      countKey s'.truncations a = 0 ∧
      countKey s'.rewards a = 0 ∧
      countKey s'.cumm_rewards a = 0 ∧
      countKey s'.infos a = 0 := by
  obtain ⟨lv, hlv, hlvm⟩ := pyRemove_count_one s.live_agents a hlive
  obtain ⟨d1, hd1, hc1⟩ := ddel_countKey_one s.observations a hobs
  obtain ⟨d2, hd2, hc2⟩ := ddel_countKey_one s.terminations a hter
  obtain ⟨d3, hd3, hc3⟩ := ddel_countKey_one s.truncations a htru
  obtain ⟨d4, hd4, hc4⟩ := ddel_countKey_one s.rewards a hrew
  obtain ⟨d5, hd5, hc5⟩ := ddel_countKey_one s.cumm_rewards a hcum
  obtain ⟨d6, hd6, hc6⟩ := ddel_countKey_one s.infos a hinf
  refine ⟨⟨lv, s.agents, s.possible_agents, s.agent_id_to_index, d1, d2, d3,
    d4, d5, d6, s.current_action, s.action_spaces, s.uint8_visual,
    s.agent_index, s.simSteps⟩, ?_, rfl, hlvm, hc1, hc2, hc3, hc4, hc5, hc6⟩
  simp only [procDead, hlv, hd1, hd2, hd3, hd4, hd5, hd6]

theorem action_to_np_of_contains (sp : ActionSpace) (act : PyAct)
    (h : containsA sp act = true) : action_to_np sp act = act := by
  cases sp <;> cases act <;> first | rfl | simp [containsA] at h

/-- C2: for an agent whose termination or truncation flag is true when
its action is processed by step(), provided the submitted action passes
validation (or is `None`), `_process_action` writes nothing into any
pending-action buffer and instead removes the agent from the live set
and deletes its entries from all six per-agent mappings, completing
without error (the presence hypotheses are the per-agent-bundle
invariant for the flagged agent). -/
theorem process_action_dead_removal (s : EnvState) (a : AgentId) (act : PyAct)
    (sp : ActionSpace)
    (hsp : dget s.action_spaces (agent_id_to_behavior a) = some sp)
    (hval : act = PyAct.none ∨ containsA sp act = true)
    (t1 t2 : Bool)
    (hterm : dget s.terminations a = some t1)
    (htrunc : dget s.truncations a = some t2)
    (hflag : (t1 || t2) = true)
    (hlive : s.live_agents.count a = 1)
    (hobs : countKey s.observations a = 1)
    (hter : countKey s.terminations a = 1)
    (htru : countKey s.truncations a = 1)
    (hrew : countKey s.rewards a = 1)
    (hcum : countKey s.cumm_rewards a = 1)
    (hinf : countKey s.infos a = 1) :
    ∃ s', process_action s a act = .ok s' ∧
      s'.current_action = s.current_action ∧
      a ∉ s'.live_agents ∧
      countKey s'.observations a = 0 ∧
      countKey s'.terminations a = 0 ∧
      countKey s'.truncations a = 0 ∧
      countKey s'.rewards a = 0 ∧
      countKey s'.cumm_rewards a = 0 ∧
      countKey s'.infos a = 0 := by
  obtain ⟨s', hdead, hrest⟩ :=
    procDead_removes s a hlive hobs hter htru hrew hcum hinf
  have hfl : ∀ atv, procFlag s a atv = .ok s' := by
    intro atv
    simp only [procFlag, hterm, htrunc]
    cases t1 with
    | true => simpa using hdead
    | false =>
      cases t2 with
      | true => simpa using hdead
      | false => simp at hflag
  refine ⟨s', ?_, hrest⟩
  simp only [process_action, hsp]
  rcases hval with rfl | hcon
  · exact hfl Option.none
  · have hid : action_to_np sp act = act := action_to_np_of_contains sp act hcon
    cases act with
    | none => exact hfl Option.none
    | intScalar z => simp [hid, hcon, hfl]
    | floatScalar q => simp [hid, hcon, hfl]
    | ints v => simp [hid, hcon, hfl]
    | floats v => simp [hid, hcon, hfl]
    | pair c d => simp [hid, hcon, hfl]

/-- Witness for `process_action_dead_removal` on a concrete flagged agent. -/
theorem process_action_dead_removal_witness :
    ∃ s', process_action sC2 aB0 PyAct.none = .ok s' ∧
      s'.current_action = sC2.current_action ∧
      aB0 ∉ s'.live_agents ∧
      countKey s'.observations aB0 = 0 ∧
      countKey s'.terminations aB0 = 0 ∧
      countKey s'.truncations aB0 = 0 ∧
      countKey s'.rewards aB0 = 0 ∧
      countKey s'.cumm_rewards aB0 = 0 ∧
      countKey s'.infos aB0 = 0 :=
  process_action_dead_removal sC2 aB0 PyAct.none (ActionSpace.discrete 3)
    (by decide) (Or.inl rfl) true false (by decide) (by decide) (by decide)
    (by decide) (by decide) (by decide) (by decide) (by decide) (by decide)
    (by decide)

theorem pyRemove_subset {α : Type} [DecidableEq α] (l : List α) (a : α)
    (l' : List α) (h : pyRemove l a = .ok l') : ∀ x ∈ l', x ∈ l := by
  induction l generalizing l' with
  | nil => exact Except.noConfusion h
  | cons y t ih =>
    unfold pyRemove at h
    split at h
    · cases h
      exact fun x hx => List.mem_cons_of_mem y hx
    · cases hr : pyRemove t a with
      | error e => rw [hr] at h; exact Except.noConfusion h
      | ok t' =>
        rw [hr] at h
        cases h
        intro x hx
        rcases List.mem_cons.mp hx with rfl | hx'
        · exact List.mem_cons_self _ _
        · exact List.mem_cons_of_mem y (ih t' hr x hx')

theorem mem_setAdd (s : List AgentId) (a x : AgentId) :
    x ∈ setAdd s a ↔ x ∈ s ∨ x = a := by
  unfold setAdd
  by_cases hm : a ∈ s
  · simp only [if_pos hm]
    constructor
    · exact Or.inl
    · rintro (hx | rfl)
      · exact hx
      · exact hm
  · simp [if_neg hm]

theorem mem_setUpdate_left (s : List AgentId) (l : List AgentId) (x : AgentId)
    (h : x ∈ s) : x ∈ setUpdate s l := by
  induction l generalizing s with
  | nil => exact h
  | cons a t ih => exact ih (setAdd s a) ((mem_setAdd s a x).mpr (Or.inl h))

theorem mem_setUpdate_right (s : List AgentId) (l : List AgentId) (x : AgentId)
    (h : x ∈ l) : x ∈ setUpdate s l := by
  induction l generalizing s with
  | nil => simp at h
  | cons a t ih =>
    rcases List.mem_cons.mp h with rfl | hx
    · exact mem_setUpdate_left _ t x ((mem_setAdd s x x).mpr (Or.inr rfl))
    · exact ih (setAdd s a) hx

theorem mem_insertSorted (x y : AgentId) (l : List AgentId) :
    x ∈ insertSorted y l ↔ x = y ∨ x ∈ l := by
  induction l with
  | nil => simp [insertSorted]
  | cons z t ih =>
    unfold insertSorted
    by_cases hc : charListLt y z = true
    · simp [hc]
    · simp only [if_neg hc, List.mem_cons, ih]
      tauto

theorem mem_pySort (x : AgentId) (l : List AgentId) : x ∈ pySort l ↔ x ∈ l := by
  induction l with
  | nil => simp [pySort]
  | cons y t ih =>
    show x ∈ insertSorted y (pySort t) ↔ _
    rw [mem_insertSorted, ih]
    simp

theorem procWriteDisc_frame (s : EnvState) (bname : List Char) (idx : Nat)
    (dv : Option (List Int)) (s' : EnvState)
    (h : procWriteDisc s bname idx dv = .ok s') :
    s'.possible_agents = s.possible_agents ∧ s'.live_agents = s.live_agents := by
  unfold procWriteDisc at h
  split at h
  · cases h; exact ⟨rfl, rfl⟩
  · split at h
    · exact Except.noConfusion h
    · split at h
      · exact Except.noConfusion h
      · cases h; exact ⟨rfl, rfl⟩

theorem procWrite_frame (s : EnvState) (a : AgentId) (atv : Option ActionTupleV)
    (s' : EnvState) (h : procWrite s a atv = .ok s') :
    s'.possible_agents = s.possible_agents ∧ s'.live_agents = s.live_agents := by
  unfold procWrite at h
  dsimp only [] at h
  split at h
  · exact Except.noConfusion h
  · split at h
    · exact Except.noConfusion h
    · split at h
      · exact procWriteDisc_frame _ _ _ _ _ h
      · split at h
        · exact Except.noConfusion h
        · split at h
          · exact Except.noConfusion h
          · obtain ⟨h1, h2⟩ := procWriteDisc_frame _ _ _ _ _ h
            exact ⟨h1, h2⟩

theorem procDead_frame (s : EnvState) (a : AgentId) (s' : EnvState)
    (h : procDead s a = .ok s') :
    s'.possible_agents = s.possible_agents ∧
      ∀ x ∈ s'.live_agents, x ∈ s.live_agents := by
  unfold procDead at h
  dsimp only [] at h
  split at h
  · exact Except.noConfusion h
  next lv hlv =>
    split at h
    · exact Except.noConfusion h
    · split at h
      · exact Except.noConfusion h
      · split at h
        · exact Except.noConfusion h
        · split at h
          · exact Except.noConfusion h
          · split at h
            · exact Except.noConfusion h
            · split at h
              · exact Except.noConfusion h
              · cases h
                exact ⟨rfl, pyRemove_subset s.live_agents a lv hlv⟩

theorem process_action_frame (s : EnvState) (a : AgentId) (act : PyAct)
    (s' : EnvState) (h : process_action s a act = .ok s') :
    s'.possible_agents = s.possible_agents ∧
      ∀ x ∈ s'.live_agents, x ∈ s.live_agents := by
  have hflag : ∀ atv, procFlag s a atv = .ok s' →
      s'.possible_agents = s.possible_agents ∧
        ∀ x ∈ s'.live_agents, x ∈ s.live_agents := by
    intro atv hf
    unfold procFlag at hf
    split at hf
    · exact Except.noConfusion hf
    · split at hf
      · exact procDead_frame _ _ _ hf
      · split at hf
        · exact Except.noConfusion hf
        · split at hf
          · exact procDead_frame _ _ _ hf
          · obtain ⟨h1, h2⟩ := procWrite_frame _ _ _ _ hf
            exact ⟨h1, fun x hx => h2 ▸ hx⟩
  unfold process_action at h
  split at h
  · exact Except.noConfusion h
  · split at h
    · exact hflag _ h
    · split at h
      · exact hflag _ h
      · exact Except.noConfusion h

theorem processActions_frame (actions : List (AgentId × PyAct)) (s s' : EnvState)
    (h : processActions s actions = .ok s') :
    s'.possible_agents = s.possible_agents ∧
      ∀ x ∈ s'.live_agents, x ∈ s.live_agents := by
  induction actions generalizing s with
  | nil => cases h; exact ⟨rfl, fun x hx => hx⟩
  | cons p rest ih =>
    unfold processActions at h
    split at h
    · exact Except.noConfusion h
    next s1 h1 =>
      obtain ⟨hp1, hl1⟩ := process_action_frame _ _ _ _ h1
      obtain ⟨hp2, hl2⟩ := ih _ h
      exact ⟨hp2.trans hp1, fun x hx => hl1 x (hl2 x hx)⟩

theorem batch_update_frame (s : EnvState) (b : BehaviorIn) (s' : EnvState)
    (t : Dict AgentId Bool) (rw c : Dict AgentId ℚ)
    (h : batch_update s b = .ok (s', t, rw, c)) :
    (∀ x ∈ s.possible_agents, x ∈ s'.possible_agents) ∧
      (∀ x ∈ s'.live_agents, x ∈ s.live_agents ∨ x ∈ s'.possible_agents) := by
  unfold batch_update at h
  dsimp only [] at h
  split at h
  · exact Except.noConfusion h
  next r hr =>
    cases h
    refine ⟨fun x hx => mem_setUpdate_left _ _ x hx, fun x hx => ?_⟩
    rcases List.mem_append.mp hx with hx' | hx'
    · exact Or.inl hx'
    · exact Or.inr (mem_setUpdate_right _ _ x hx')

theorem stepBehaviors_inv (resp : EnvResponse) (s s' : EnvState)
    (h : stepBehaviors s resp = .ok s')
    (hls : ∀ x ∈ s.live_agents, x ∈ s.possible_agents) :
    (∀ x ∈ s.possible_agents, x ∈ s'.possible_agents) ∧
      (∀ x ∈ s'.live_agents, x ∈ s'.possible_agents) := by
  induction resp generalizing s with
  | nil => cases h; exact ⟨fun x hx => hx, hls⟩
  | cons b rest ih =>
    unfold stepBehaviors at h
    split at h
    · exact Except.noConfusion h
    next s1 t rw c hb =>
      obtain ⟨hmono, hlive⟩ := batch_update_frame s b s1 t rw c hb
      have hls1 : ∀ x ∈ s1.live_agents, x ∈ s1.possible_agents := by
        intro x hx
        rcases hlive x hx with hx' | hx'
        · exact hmono x (hls x hx')
        · exact hx'
      obtain ⟨hmono2, hlive2⟩ := ih _ h hls1
      exact ⟨fun x hx => hmono2 x (hmono x hx), hlive2⟩

theorem stepEnv_inv (s : EnvState) (resp : EnvResponse) (s' : EnvState)
    (h : stepEnv s resp = .ok s') :
    (∀ x ∈ s.possible_agents, x ∈ s'.possible_agents) ∧
      (∀ x ∈ s'.live_agents, x ∈ s'.possible_agents) := by
  unfold stepEnv at h
  dsimp only [] at h
  split at h
  · exact Except.noConfusion h
  next s3 h3 =>
    cases h
    obtain ⟨hm, hl⟩ := stepBehaviors_inv resp _ s3 h3 (by simp [reset_states])
    exact ⟨fun x hx => hm x hx, hl⟩

theorem removeDeads_frame (deads : List AgentId) (s s' : EnvState)
    (h : removeDeads s deads = .ok s') :
    s'.possible_agents = s.possible_agents ∧
      ∀ x ∈ s'.live_agents, x ∈ s.live_agents := by
  induction deads generalizing s with
  | nil => cases h; exact ⟨rfl, fun x hx => hx⟩
  | cons a t ih =>
    unfold removeDeads at h
    dsimp only [] at h
    split at h
    · exact Except.noConfusion h
    next lv hlv =>
      split at h
      · exact Except.noConfusion h
      next ag hag =>
        obtain ⟨hp, hl⟩ := ih _ h
        exact ⟨hp, fun x hx => pyRemove_subset _ _ _ hlv x (hl x hx)⟩

theorem cleanup_agents_frame (s s' : EnvState) (h : cleanup_agents s = .ok s') :
    s'.possible_agents = s.possible_agents ∧
      ∀ x ∈ s'.live_agents, x ∈ s.live_agents := by
  unfold cleanup_agents at h
  split at h
  · exact Except.noConfusion h
  next deads hd => exact removeDeads_frame deads s s' h

/-- C8: whenever step() completes, the possible-agent set after the step
is a superset of the possible-agent set before it, and the live-agent set
after the step is a subset of the possible-agent set after it. -/
theorem step_lifecycle_conservation (s : EnvState)
    (actions : List (AgentId × PyAct)) (resp : EnvResponse) (s' : EnvState)
    (h : stepP s actions resp = .ok s') :
    (∀ x ∈ s.possible_agents, x ∈ s'.possible_agents) ∧
      (∀ x ∈ s'.live_agents, x ∈ s'.possible_agents) := by
  unfold stepP at h
  split at h
  · exact Except.noConfusion h
  · split at h
    · exact Except.noConfusion h
    next s1 h1 =>
      dsimp only [] at h
      split at h
      · exact Except.noConfusion h
      next s3 h3 =>
        split at h
        · exact Except.noConfusion h
        next s4 h4 =>
          cases h
          obtain ⟨hpa, -⟩ := processActions_frame actions s s1 h1
          obtain ⟨hm3, hl3⟩ := stepEnv_inv _ resp s3 h3
          obtain ⟨hp4, hl4⟩ := cleanup_agents_frame s3 s4 h4
          constructor
          · intro x hx
            show x ∈ s4.possible_agents
            rw [hp4]
            exact hm3 x (by simpa [hpa] using hx)
          · intro x hx
            show x ∈ s4.possible_agents
            rw [hp4]
            exact hl3 x (hl4 x ((mem_pySort x _).mp hx))

/-- Witness for `step_lifecycle_conservation` on a concrete completed
step. -/
theorem step_lifecycle_conservation_witness :
    (∀ x ∈ sEmpty.possible_agents, x ∈ sEmptyStepped.possible_agents) ∧
      (∀ x ∈ sEmptyStepped.live_agents, x ∈ sEmptyStepped.possible_agents) :=
  step_lifecycle_conservation sEmpty [] [] sEmptyStepped rfl

/-- C1 (code bug): after a completed `reset()` the single live agent has
exactly one entry in every per-agent mapping, but submitting a valid
action and stepping raises `KeyError("B?agent_id=0")` inside
`_cleanup_agents`: `_step` clears `_truncations` via `_reset_states` and
never repopulates it (it merges only terminations, rewards and cumulative
rewards), so at the failure point the still-live agent has an entry in
`_terminations` but zero entries in `_truncations` — the step never
completes and the claimed invariant cannot be restored. -/
theorem step_truncations_keyerror_bug :
    (resetP sInitC1 respC1).toOption.isSome = true ∧
    s0C1.live_agents = [aB0] ∧
    countKey s0C1.truncations aB0 = 1 ∧
    ∃ sErr, stepP s0C1 [(aB0, PyAct.intScalar 1)] respC1 =
        .error (.keyError aB0, sErr) ∧
      countKey sErr.terminations aB0 = 1 ∧
      countKey sErr.truncations aB0 = 0 ∧
      aB0 ∈ sErr.live_agents := by
  refine ⟨rfl, rfl, rfl, ⟨_, rfl, rfl, rfl, ?_⟩⟩
  decide

theorem dget_dinsert_self {K V : Type} [DecidableEq K] (d : Dict K V) (k : K)
    (v : V) : dget (dinsert d k v) k = some v := by
  induction d with
  | nil => simp [dinsert, dget]
  | cons p t ih =>
    by_cases hp : p.1 = k
    · simp [dinsert, hp, dget]
    · simp [dinsert, hp, dget, ih]

theorem dget_dinsert_ne {K V : Type} [DecidableEq K] (d : Dict K V) (k k' : K)
    (v : V) (hne : k ≠ k') : dget (dinsert d k v) k' = dget d k' := by
  induction d with
  | nil => simp [dinsert, dget, hne]
  | cons p t ih =>
    by_cases hp : p.1 = k
    · simp [dinsert, hp, dget, hne]
    · simp [dinsert, hp, dget, ih]

/-- C9 (counterexample): the caller obtains the `infos` snapshot, mutates
the nested `group_id` entry of the returned per-agent info, and the
controller's own subsequent read of `self._infos[agent]` sees the
mutation — the returned mapping is not an independent snapshot of the
nested info entries. -/
theorem infos_nested_mutation_cex :
    ∃ h1 r h2, infosProp heapC9 = .ok (h1, r) ∧ r ≠ heapC9.selfRef ∧
      setNestedGroupId h1 r aB0 7 = .ok h2 ∧
      readInternal heapC9 aB0 = some infoH0 ∧
      readInternal h2 aB0 = some { infoH0 with group_id := 7 } ∧
      ({ infoH0 with group_id := 7 } : InfoV) ≠ infoH0 := by
  refine ⟨_, _, _, rfl, by decide, rfl, rfl, rfl, by decide⟩

/-- C9 (amended): the accessor mappings are fresh top-level snapshots —
key-level mutation of the returned `infos` dict (deleting an agent's
entry) leaves the controller's internal read unchanged — but the copy is
shallow: the per-agent info objects are shared by reference, so a
caller-side mutation of a nested info entry is visible in the
controller's subsequent internal reads.  (The scalar-valued mappings
`rewards`, `terminations`, `truncations` and the `agents` /
`possible_agents` lists have immutable entries, so for them the shallow
copy is a complete snapshot.) -/
theorem infos_shallow_snapshot (h : InfosHeap) (d : Dict AgentId Nat)
    (a : AgentId) (r0 : Nat) (info : InfoV) (g : Int)
    (h1 h2 h3 : InfosHeap) (rtop : Nat)
    (hself : dget h.tops h.selfRef = some d)
    (hfresh : h.selfRef ≠ h.next)
    (hda : dget d a = some r0)
    (hobj : dget h.objs r0 = some info)
    (hprop : infosProp h = .ok (h1, rtop))
    (hdel : delTopKey h1 rtop a = .ok h2)
    (hset : setNestedGroupId h1 rtop a g = .ok h3) :
    readInternal h2 a = readInternal h a ∧
      readInternal h3 a = some { info with group_id := g } := by
  have hread : readInternal h a = some info := by
    simp only [readInternal, hself, hda, hobj]
  simp only [infosProp, hself] at hprop
  have h1eq : h1 = { h with tops := dinsert h.tops h.next d, next := h.next + 1 } := by
    cases hprop; rfl
  have hreq : rtop = h.next := by
    cases hprop; rfl
  subst h1eq
  subst hreq
  have htop : dget (dinsert h.tops h.next d) h.next = some d :=
    dget_dinsert_self h.tops h.next d
  have hselfkeep : dget (dinsert h.tops h.next d) h.selfRef = some d := by
    rw [dget_dinsert_ne h.tops h.next h.selfRef d (fun hc => hfresh hc.symm)]
    exact hself
  constructor
  · simp only [delTopKey, htop] at hdel
    cases hdd : ddel d a with
    | error e => rw [hdd] at hdel; exact Except.noConfusion hdel
    | ok d' =>
      rw [hdd] at hdel
      cases hdel
      rw [hread]
      simp only [readInternal,
        dget_dinsert_ne (dinsert h.tops h.next d) h.next h.selfRef d'
          (fun hc => hfresh hc.symm),
        hselfkeep, hda, hobj]
  · simp only [setNestedGroupId, htop, hda, hobj] at hset
    cases hset
    simp only [readInternal, hselfkeep, hda, dget_dinsert_self]

/-- Witness for `infos_shallow_snapshot` on a concrete heap. -/
theorem infos_shallow_snapshot_witness :
    readInternal h2W aB0 = readInternal heapC9 aB0 ∧
      readInternal h3W aB0 = some { infoH0 with group_id := 7 } :=
  infos_shallow_snapshot heapC9 [(aB0, 10)] aB0 10 infoH0 7 h1W h2W h3W 1
    rfl (by decide) rfl rfl rfl rfl rfl
